import Mathlib

/-!
Shallow embedding of the notebook `blog-pytorch-jax.ipynb`: two parallel
pipelines (PyTorch and JAX) that train a two-layer fully connected network
on FashionMNIST with SGD (lr = 0.001, momentum = 0.9), evaluate top-1
accuracy over the test split, and visualize the 128 first-layer weight rows
on an 11×12 grid.

Numeric values are modelled as rationals.  External library primitives are
modelled by their documented behaviour: `DataLoader` batching (no
`drop_last`) by `chunks`, `jax.nn.one_hot` by `oneHot`, and
`jax.nn.log_softmax x = x - logsumexp x` with the transcendental
`logsumexp` kept abstract as a function parameter `lse` (the claims proved
here do not depend on its value).  Python's division, which raises
`ZeroDivisionError` on a zero denominator, is modelled with `Option`.
-/

namespace Blog

/-- `DataLoader(dataset, batch_size=k)` with the default `drop_last=False`:
split a list into consecutive chunks of size `k` (the last chunk may be
shorter); used with `k = 64` by both pipelines. -/
def chunks : Nat → List α → List (List α)
  | _, [] => []
  | 0, _ => []
  | k + 1, a :: as =>
      (a :: as).take (k + 1) :: chunks (k + 1) ((a :: as).drop (k + 1))
termination_by _ l => l.length
decreasing_by
  simp only [List.drop_succ_cons, List.length_cons, List.length_drop]
  omega

/-- Index of the first maximal entry, as computed by `torch.max(outputs, 1)`
and `jnp.argmax(logits, -1)` (ties resolved to the first occurrence). -/
def argmaxAux : Nat → Nat → ℚ → List ℚ → Nat
  | _, best, _, [] => best
  | i, best, bv, x :: xs =>
      if bv < x then argmaxAux (i + 1) i x xs else argmaxAux (i + 1) best bv xs

/-- First-maximum argmax over a logits row (0 on the empty row). -/
def argmaxIdx : List ℚ → Nat
  | [] => 0
  | x :: xs => argmaxAux 1 0 x xs

/-- `jnp.mean` of a list of rationals. -/
def mean (l : List ℚ) : ℚ := l.sum / l.length

/-- Number of examples of a batch whose predicted class (argmax of the
model's logits) equals the true label: `(predicted == labels).sum()`. -/
def batchCorrect (net : α → List ℚ) (batch : List (α × Nat)) : Nat :=
  batch.countP (fun ex => decide (argmaxIdx (net ex.1) = ex.2))

/-- `evaluate_model` (PyTorch cell): accumulate `correct` and `total` over
the batches of the test loader, then return `100 * correct / total`.
Python raises `ZeroDivisionError` when `total = 0`; this is the `none`
branch. -/
def evaluate_model (net : α → List ℚ) (batches : List (List (α × Nat))) :
    Option ℚ :=
  let ct := batches.foldl
    (fun acc b => (acc.1 + batchCorrect net b, acc.2 + b.length)) (0, 0)
  if ct.2 = 0 then none else some (100 * (ct.1 : ℚ) / (ct.2 : ℚ))

/-- `accuracy(logits, labels)` (JAX cell): the mean of the per-example
indicator `jnp.argmax(logits, -1) == labels`. -/
def batchAccuracy (net : α → List ℚ) (batch : List (α × Nat)) : ℚ :=
  mean (batch.map (fun ex => if argmaxIdx (net ex.1) = ex.2 then (1 : ℚ) else 0))

/-- The JAX evaluation loop: collect `eval_step` results (one per-batch
accuracy fraction per test batch) and print `np.mean(accuracies)`. -/
def jaxEval (net : α → List ℚ) (batches : List (List (α × Nat))) : ℚ :=
  mean (batches.map (batchAccuracy net))

/-- One scalar step of the configured optimizers (`optim.SGD` with
`lr=0.001, momentum=0.9`, and `optax.sgd` likewise): the momentum buffer
becomes `mu * buf + g` and the parameter becomes `p - lr * buf'`.  The
state is `(parameter, buffer)`; buffers start at `0`. -/
def codeStep (lr mu : ℚ) (s : ℚ × ℚ) (g : ℚ) : ℚ × ℚ :=
  (s.1 - lr * (mu * s.2 + g), mu * s.2 + g)

/-- One scalar step of the spec's classic SGD-with-momentum rule:
`velocity = mu * velocity - lr * g; parameter += velocity`.  The state is
`(parameter, velocity)`; velocities start at `0`. -/
def classicStep (lr mu : ℚ) (s : ℚ × ℚ) (g : ℚ) : ℚ × ℚ :=
  (s.1 + (mu * s.2 - lr * g), mu * s.2 - lr * g)

/-- Parameter-and-buffer trajectory of the configured optimizers over a
gradient sequence, from parameter `p0` and zero buffer. -/
def runCode (lr mu p0 : ℚ) (gs : List ℚ) : ℚ × ℚ :=
  gs.foldl (codeStep lr mu) (p0, 0)

/-- Parameter-and-velocity trajectory of the spec's classic rule over a
gradient sequence, from parameter `p0` and zero velocity. -/
def runClassic (lr mu p0 : ℚ) (gs : List ℚ) : ℚ × ℚ :=
  gs.foldl (classicStep lr mu) (p0, 0)

/-- Elementwise momentum-buffer update of a 1-d tensor. -/
def newBuf (mu : ℚ) (b g : List ℚ) : List ℚ :=
  List.zipWith (fun bi gi => mu * bi + gi) b g

/-- Elementwise parameter update of a 1-d tensor against the new buffer. -/
def newParamVec (lr : ℚ) (p b : List ℚ) : List ℚ :=
  List.zipWith (fun pi bi => pi - lr * bi) p b

/-- Rowwise momentum-buffer update of a 2-d tensor. -/
def newBufMat (mu : ℚ) (b g : List (List ℚ)) : List (List ℚ) :=
  List.zipWith (newBuf mu) b g

/-- Rowwise parameter update of a 2-d tensor against the new buffer. -/
def newParamMat (lr : ℚ) (p b : List (List ℚ)) : List (List ℚ) :=
  List.zipWith (newParamVec lr) p b

/-- The four parameter tensors of the network (`fc1` / `Dense_0` weight and
bias, `fc2` / `Dense_1` weight and bias); also the type of the gradient and
momentum pytrees, which mirror the parameter shapes. -/
structure NetParams where
  w1 : List (List ℚ)
  b1 : List ℚ
  w2 : List (List ℚ)
  b2 : List ℚ

/-- The shape signature of a parameter pytree: per-row lengths of each
weight matrix and lengths of the biases. -/
def dims (p : NetParams) : List Nat × Nat × List Nat × Nat :=
  (p.w1.map List.length, p.b1.length, p.w2.map List.length, p.b2.length)

/-- One `optimizer.step()` / `apply_gradients` over the whole pytree:
every tensor is updated elementwise by `codeStep`.  Returns the new
parameters and the new momentum buffers. -/
def netStep (lr mu : ℚ) (p m g : NetParams) : NetParams × NetParams :=
  (⟨newParamMat lr p.w1 (newBufMat mu m.w1 g.w1),
    newParamVec lr p.b1 (newBuf mu m.b1 g.b1),
    newParamMat lr p.w2 (newBufMat mu m.w2 g.w2),
    newParamVec lr p.b2 (newBuf mu m.b2 g.b2)⟩,
   ⟨newBufMat mu m.w1 g.w1, newBuf mu m.b1 g.b1,
    newBufMat mu m.w2 g.w2, newBuf mu m.b2 g.b2⟩)

/-- `jax.nn.one_hot(label, n)`: the length-`n` 0/1 indicator row of
`label` (all zeros when `label ≥ n`). -/
def oneHot : Nat → Nat → List ℚ
  | 0, _ => []
  | n + 1, 0 => 1 :: List.replicate n 0
  | n + 1, k + 1 => 0 :: oneHot n k

/-- `jax.nn.log_softmax(row) = row - logsumexp(row)`, with the
transcendental `logsumexp` abstracted as the parameter `lse`. -/
def logSoftmax (lse : List ℚ → ℚ) (row : List ℚ) : List ℚ :=
  row.map (fun x => x - lse row)

/-- `cross_entropy_loss` (JAX cell):
`-mean(sum(one_hot(labels, 10) * log_softmax(logits), axis=-1))`. -/
def cross_entropy_loss (lse : List ℚ → ℚ) (logits : List (List ℚ))
    (labels : List Nat) : ℚ :=
  -(mean (List.zipWith
      (fun row lab =>
        (List.zipWith (· * ·) (oneHot 10 lab) (logSoftmax lse row)).sum)
      logits labels))

/-- The spec's reading of the loss: the mean over examples of the negative
log-likelihood that `log_softmax` assigns to the true class. -/
def nllLoss (lse : List ℚ → ℚ) (logits : List (List ℚ))
    (labels : List Nat) : ℚ :=
  mean (List.zipWith
    (fun row lab => -((logSoftmax lse row).getD lab 0)) logits labels)

/-- The evaluation loop with the surrounding program state (parameters and
optimizer state, of an arbitrary type `σ`) threaded explicitly: each
iteration reads the state to run the forward pass and updates only the
`correct` and `total` counters, exactly as the loop body of
`evaluate_model` (under `torch.no_grad()`) and the `eval_step` loop do. -/
def evalBody (net : σ → α → List ℚ) (st : σ × Nat × Nat)
    (batch : List (α × Nat)) : σ × Nat × Nat :=
  (st.1, st.2.1 + batchCorrect (net st.1) batch, st.2.2 + batch.length)

/-- Folding the evaluation loop body over all test batches. -/
def evalRun (net : σ → α → List ℚ) (s0 : σ)
    (batches : List (List (α × Nat))) : σ × Nat × Nat :=
  batches.foldl (evalBody net) (s0, 0, 0)

/-- `ToTensor` on one grayscale pixel (an 8-bit intensity): scale to
`[0, 1]` by dividing by 255. -/
def toTensor (pixel : Nat) : ℚ := (pixel : ℚ) / 255

/-- `transforms.Normalize((m,), (s,))` on one channel value. -/
def normalize (m s x : ℚ) : ℚ := (x - m) / s

/-- The PyTorch test transform: `ToTensor` then `Normalize((0.5,), (0.5,))`. -/
def testTransform (pixel : Nat) : ℚ := normalize (1/2) (1/2) (toTensor pixel)

/-- The PyTorch training transform: `ToTensor` only. -/
def trainTransform (pixel : Nat) : ℚ := toTensor pixel

/-- The JAX pipeline's training transform: `ToTensor`. -/
def jaxTrainTransform (pixel : Nat) : ℚ := toTensor pixel

/-- The JAX pipeline's test transform: also plain `ToTensor`. -/
def jaxTestTransform (pixel : Nat) : ℚ := toTensor pixel

/-- The 11×12 weight-grid figure: cell `i` of `axes.flat` shows
`weights[i].reshape(28, 28)` when `i < len(weights)` and stays blank
(`none`) otherwise. -/
def weightGrid (weights : List (List ℚ)) : List (Option (List (List ℚ))) :=
  (List.range (11 * 12)).map
    (fun i => if i < weights.length then some (chunks 28 (weights.getD i []))
              else none)

/-- A full run of one pipeline at the level the claims need: the trainer is
the optimizer fold `runCode` over the per-batch gradient sequence `gs`
(whose order is the shuffle order drawn by the unseeded training loader),
and the reported number is `evaluate_model` of the trained parameter.  The
model's logits as a function of the trained parameter are abstracted as
`net`. -/
def reportedAccuracy (lr mu : ℚ) (net : ℚ → α → List ℚ) (p0 : ℚ)
    (gs : List ℚ) (testBatches : List (List (α × Nat))) : Option ℚ :=
  evaluate_model (net (runCode lr mu p0 gs).1) testBatches

/-- A concrete single-parameter logit map used to witness that the reported
accuracy depends on the shuffle order: logits `[p + 15/10000, 0]` on the
single test input. -/
def netC7 (p : ℚ) (_x : Unit) : List ℚ := [p + 15/10000, 0]

/-! ### Helper lemmas -/

theorem foldl_classic_eq_code (lr mu : ℚ) :
    ∀ (gs : List ℚ) (p b : ℚ),
      gs.foldl (classicStep lr mu) (p, -(lr * b))
        = ((gs.foldl (codeStep lr mu) (p, b)).1,
           -(lr * (gs.foldl (codeStep lr mu) (p, b)).2)) := by
  intro gs
  induction gs with
  | nil => intro p b; rfl
  | cons g gs ih =>
      intro p b
      simp only [List.foldl_cons, classicStep, codeStep]
      have h2 : mu * -(lr * b) - lr * g = -(lr * (mu * b + g)) := by ring
      have h3 : p + (mu * -(lr * b) - lr * g) = p - lr * (mu * b + g) := by ring
      rw [h3, h2]
      exact ih (p - lr * (mu * b + g)) (mu * b + g)

theorem evalRun_foldl_fst (net : σ → α → List ℚ) :
    ∀ (bs : List (List (α × Nat))) (st : σ × Nat × Nat),
      (bs.foldl (evalBody net) st).1 = st.1 := by
  intro bs
  induction bs with
  | nil => intro st; rfl
  | cons b bs ih => intro st; rw [List.foldl_cons]; exact ih _

theorem eval_foldl_counts (net : α → List ℚ) :
    ∀ (bs : List (List (α × Nat))) (c t : Nat),
      bs.foldl (fun acc b => (acc.1 + batchCorrect net b, acc.2 + b.length)) (c, t)
        = (c + batchCorrect net bs.flatten, t + bs.flatten.length) := by
  intro bs
  induction bs with
  | nil => intro c t; simp [batchCorrect]
  | cons b bs ih =>
      intro c t
      rw [List.foldl_cons, ih]
      simp only [List.flatten_cons, batchCorrect, List.countP_append,
        List.length_append]
      exact Prod.ext (by omega) (by omega)

theorem sum_ite_count (net : α → List ℚ) (b : List (α × Nat)) :
    (b.map (fun ex => if argmaxIdx (net ex.1) = ex.2 then (1 : ℚ) else 0)).sum
      = (batchCorrect net b : ℚ) := by
  induction b with
  | nil => simp [batchCorrect]
  | cons ex b ih =>
      simp only [List.map_cons, List.sum_cons, batchCorrect, List.countP_cons, ih]
      by_cases h : argmaxIdx (net ex.1) = ex.2 <;> simp [h, batchCorrect] <;> ring

theorem batchAccuracy_eq_frac (net : α → List ℚ) (b : List (α × Nat)) :
    batchAccuracy net b = (batchCorrect net b : ℚ) / (b.length : ℚ) := by
  rw [batchAccuracy, mean, sum_ite_count, List.length_map]

theorem chunks_nil (k : Nat) : chunks k ([] : List α) = [] := by
  cases k <;> simp [chunks]

theorem chunks_cons (k : Nat) (a : α) (as : List α) :
    chunks (k + 1) (a :: as)
      = (a :: as).take (k + 1) :: chunks (k + 1) ((a :: as).drop (k + 1)) := by
  rw [chunks]

theorem chunks_cons_ne_nil (k : Nat) (a : α) (as : List α) :
    chunks (k + 1) (a :: as) ≠ [] := by
  rw [chunks_cons]; exact List.cons_ne_nil _ _

theorem length_chunks_aux (k : Nat) :
    ∀ (n : Nat) (l : List α), l.length ≤ n →
      (chunks (k + 1) l).length = (l.length + k) / (k + 1) := by
  intro n
  induction n with
  | zero =>
      intro l hl
      have : l = [] := List.length_eq_zero.mp (Nat.le_zero.mp hl)
      subst this
      simp [chunks_nil, Nat.div_eq_of_lt (Nat.lt_succ_self k)]
  | succ n ih =>
      intro l hl
      match l with
      | [] => simp [chunks_nil, Nat.div_eq_of_lt (Nat.lt_succ_self k)]
      | a :: as =>
          rw [chunks_cons, List.length_cons]
          have hdrop : ((a :: as).drop (k + 1)).length = (a :: as).length - (k + 1) := by
            simp [List.length_drop]
          have hfuel : ((a :: as).drop (k + 1)).length ≤ n := by
            rw [hdrop]; simp only [List.length_cons] at hl ⊢; omega
          rw [ih _ hfuel, hdrop]
          have hlen : 0 < (a :: as).length := by simp
          rcases le_or_lt (a :: as).length (k + 1) with hle | hlt
          · have h1 : (a :: as).length - (k + 1) = 0 := by omega
            have h2 : (a :: as).length + k = ((a :: as).length - 1) + (k + 1) := by omega
            rw [h1, h2, Nat.add_div_right _ (Nat.succ_pos k),
              Nat.div_eq_of_lt (by omega : (a :: as).length - 1 < k + 1)]
            simp [Nat.div_eq_of_lt (Nat.lt_succ_self k)]
          · have h1 : (a :: as).length - (k + 1) + k
                = ((a :: as).length - (k + 1) - 1) + (k + 1) := by omega
            have h2 : (a :: as).length + k
                = (((a :: as).length - (k + 1) - 1) + (k + 1)) + (k + 1) := by omega
            rw [h1, h2, Nat.add_div_right _ (Nat.succ_pos k),
              Nat.add_div_right _ (Nat.succ_pos k),
              Nat.add_div_right _ (Nat.succ_pos k)]

theorem length_chunks (k : Nat) (hk : 0 < k) (l : List α) :
    (chunks k l).length = (l.length + k - 1) / k := by
  obtain ⟨k', rfl⟩ : ∃ k', k = k' + 1 := ⟨k - 1, by omega⟩
  rw [length_chunks_aux k' l.length l le_rfl]
  have h : l.length + (k' + 1) - 1 = l.length + k' := by omega
  rw [h]

theorem flatten_chunks_aux (k : Nat) :
    ∀ (n : Nat) (l : List α), l.length ≤ n → (chunks (k + 1) l).flatten = l := by
  intro n
  induction n with
  | zero =>
      intro l hl
      have : l = [] := List.length_eq_zero.mp (Nat.le_zero.mp hl)
      subst this
      simp [chunks_nil]
  | succ n ih =>
      intro l hl
      match l with
      | [] => simp [chunks_nil]
      | a :: as =>
          rw [chunks_cons, List.flatten_cons]
          have hfuel : ((a :: as).drop (k + 1)).length ≤ n := by
            simp only [List.length_drop, List.length_cons] at *; omega
          rw [ih _ hfuel, List.take_append_drop]

theorem flatten_chunks (k : Nat) (hk : 0 < k) (l : List α) :
    (chunks k l).flatten = l := by
  obtain ⟨k', rfl⟩ : ∃ k', k = k' + 1 := ⟨k - 1, by omega⟩
  exact flatten_chunks_aux k' l.length l le_rfl

theorem getLast_chunks_aux (k : Nat) :
    ∀ (n : Nat) (l : List α), l.length ≤ n → l ≠ [] →
      ∃ c, (chunks (k + 1) l).getLast? = some c ∧
        c.length = (l.length - 1) % (k + 1) + 1 := by
  intro n
  induction n with
  | zero =>
      intro l hl hne
      exact absurd (List.length_eq_zero.mp (Nat.le_zero.mp hl)) hne
  | succ n ih =>
      intro l hl hne
      match l with
      | [] => exact absurd rfl hne
      | a :: as =>
          rw [chunks_cons]
          rcases le_or_lt (a :: as).length (k + 1) with hle | hlt
          · have hdrop : (a :: as).drop (k + 1) = [] := by
              apply List.drop_eq_nil_of_le
              simpa using hle
            rw [hdrop, chunks_nil]
            refine ⟨(a :: as).take (k + 1), rfl, ?_⟩
            rw [List.length_take]
            have hlen : 0 < (a :: as).length := by simp
            have : (a :: as).length - 1 < k + 1 := by omega
            rw [Nat.mod_eq_of_lt this]
            omega
          · have hdne : (a :: as).drop (k + 1) ≠ [] := by
              apply List.ne_nil_of_length_pos
              simp only [List.length_drop]
              omega
            have hfuel : ((a :: as).drop (k + 1)).length ≤ n := by
              simp only [List.length_drop, List.length_cons] at *; omega
            obtain ⟨c, hc, hclen⟩ := ih _ hfuel hdne
            obtain ⟨x, xs, hx⟩ := List.exists_cons_of_ne_nil hdne
            refine ⟨c, ?_, ?_⟩
            · rw [hx] at hc ⊢
              rw [chunks_cons k x xs] at hc ⊢
              rw [List.getLast?_cons_cons]
              exact hc
            · rw [hclen, List.length_drop]
              have h1 : (a :: as).length - 1 ≥ k + 1 := by omega
              rw [Nat.mod_eq_sub_mod h1]
              congr 2
              omega

theorem getLast_chunks (k : Nat) (hk : 0 < k) (l : List α) (hne : l ≠ []) :
    ∃ c, (chunks k l).getLast? = some c ∧
      c.length = (l.length - 1) % k + 1 := by
  obtain ⟨k', rfl⟩ : ∃ k', k = k' + 1 := ⟨k - 1, by omega⟩
  exact getLast_chunks_aux k' l.length l le_rfl hne

theorem mem_chunks_length_aux (k : Nat) :
    ∀ (n : Nat) (l : List α), l.length ≤ n → (k + 1) ∣ l.length →
      ∀ c ∈ chunks (k + 1) l, c.length = k + 1 := by
  intro n
  induction n with
  | zero =>
      intro l hl _ c hc
      have : l = [] := List.length_eq_zero.mp (Nat.le_zero.mp hl)
      subst this
      simp [chunks_nil] at hc
  | succ n ih =>
      intro l hl hdvd c hc
      match l with
      | [] => simp [chunks_nil] at hc
      | a :: as =>
          rw [chunks_cons] at hc
          have hlen : 0 < (a :: as).length := by simp
          have hge : k + 1 ≤ (a :: as).length := Nat.le_of_dvd hlen hdvd
          rcases List.mem_cons.mp hc with hc | hc
          · subst hc
            rw [List.length_take]
            omega
          · have hfuel : ((a :: as).drop (k + 1)).length ≤ n := by
              simp only [List.length_drop, List.length_cons] at *; omega
            have hdvd' : (k + 1) ∣ ((a :: as).drop (k + 1)).length := by
              rw [List.length_drop]
              exact (Nat.dvd_sub' hdvd dvd_rfl)
            exact ih _ hfuel hdvd' c hc

theorem mem_chunks_length (k : Nat) (hk : 0 < k) (l : List α)
    (hdvd : k ∣ l.length) : ∀ c ∈ chunks k l, c.length = k := by
  obtain ⟨k', rfl⟩ : ∃ k', k = k' + 1 := ⟨k - 1, by omega⟩
  exact mem_chunks_length_aux k' l.length l le_rfl hdvd

theorem sum_zipWith_mul_replicate_zero :
    ∀ (n : Nat) (v : List ℚ),
      (List.zipWith (· * ·) (List.replicate n (0 : ℚ)) v).sum = 0 := by
  intro n
  induction n with
  | zero => intro v; simp
  | succ n ih =>
      intro v
      cases v with
      | nil => simp
      | cons x xs => simp [List.replicate_succ, ih xs]

theorem oneHot_dot (v : List ℚ) :
    ∀ k, k < v.length →
      (List.zipWith (· * ·) (oneHot v.length k) v).sum = v.getD k 0 := by
  induction v with
  | nil => intro k hk; simp at hk
  | cons x xs ih =>
      intro k hk
      cases k with
      | zero =>
          show (List.zipWith (· * ·) (oneHot (xs.length + 1) 0) (x :: xs)).sum
            = (x :: xs).getD 0 0
          rw [show oneHot (xs.length + 1) 0 = 1 :: List.replicate xs.length 0 from rfl]
          simp [sum_zipWith_mul_replicate_zero xs.length xs]
      | succ k =>
          show (List.zipWith (· * ·) (oneHot (xs.length + 1) (k + 1)) (x :: xs)).sum
            = (x :: xs).getD (k + 1) 0
          rw [show oneHot (xs.length + 1) (k + 1) = 0 :: oneHot xs.length k from rfl]
          simp only [List.zipWith_cons_cons, List.sum_cons, zero_mul, zero_add,
            List.getD_cons_succ]
          exact ih k (by simpa using Nat.lt_of_succ_lt_succ hk)

theorem zipWith_congr_mem (l1 : List β) (l2 : List γ) (f g : β → γ → ℚ)
    (h : ∀ a ∈ l1, ∀ b ∈ l2, f a b = g a b) :
    List.zipWith f l1 l2 = List.zipWith g l1 l2 := by
  induction l1 generalizing l2 with
  | nil => simp
  | cons a l1 ih =>
      cases l2 with
      | nil => simp
      | cons b l2 =>
          simp only [List.zipWith_cons_cons]
          refine congrArg₂ _ (h a (by simp) b (by simp)) (ih l2 ?_)
          intro a' ha' b' hb'
          exact h a' (by simp [ha']) b' (by simp [hb'])

theorem mean_map_neg (l : List ℚ) : mean (l.map (fun x => -x)) = -(mean l) := by
  rw [mean, mean, ← List.sum_neg, List.length_map, neg_div]

theorem map_length_zipWith_zipWith (op : ℚ → ℚ → ℚ) :
    ∀ (b g : List (List ℚ)), b.map List.length = g.map List.length →
      (List.zipWith (fun bi gi => List.zipWith op bi gi) b g).map List.length
        = b.map List.length := by
  intro b
  induction b with
  | nil => intro g _; simp
  | cons r b ih =>
      intro g hg
      cases g with
      | nil => simp at hg
      | cons s g =>
          simp only [List.map_cons, List.cons.injEq] at hg
          simp only [List.zipWith_cons_cons, List.map_cons, List.cons.injEq]
          refine ⟨?_, ih g hg.2⟩
          rw [List.length_zipWith, hg.1, min_self]

theorem length_newBuf (mu : ℚ) (b g : List ℚ) (h : b.length = g.length) :
    (newBuf mu b g).length = b.length := by
  rw [newBuf, List.length_zipWith, h, min_self]

theorem length_newParamVec (lr : ℚ) (p b : List ℚ) (h : p.length = b.length) :
    (newParamVec lr p b).length = p.length := by
  rw [newParamVec, List.length_zipWith, h, min_self]

theorem map_length_newBufMat (mu : ℚ) (b g : List (List ℚ))
    (h : b.map List.length = g.map List.length) :
    (newBufMat mu b g).map List.length = b.map List.length :=
  map_length_zipWith_zipWith _ b g h

theorem map_length_newParamMat (lr : ℚ) (p b : List (List ℚ))
    (h : p.map List.length = b.map List.length) :
    (newParamMat lr p b).map List.length = p.map List.length :=
  map_length_zipWith_zipWith _ p b h

theorem countP_lt_range (m : Nat) :
    ∀ n, (List.range n).countP (fun i => decide (i < m)) = min m n := by
  intro n
  induction n with
  | zero => simp
  | succ n ih =>
      rw [List.range_succ, List.countP_append, ih]
      by_cases h : n < m <;> simp [List.countP_cons, h] <;> omega

theorem getD_map_range (g : Nat → β) (n i : Nat) (h : i < n) (d : β) :
    ((List.range n).map g).getD i d = g i := by
  rw [List.getD_eq_getElem?_getD, List.getElem?_map, List.getElem?_range h]
  rfl

theorem countP_isSome_map_range (g : Nat → Option β) (n m : Nat)
    (hg : ∀ i, (g i).isSome = decide (i < m)) :
    ((List.range n).map g).countP (fun c => c.isSome)
      = (List.range n).countP (fun i => decide (i < m)) := by
  rw [List.countP_map]
  exact List.countP_congr (fun x _ => by simp [Function.comp, hg x])

theorem evaluate_model_some (net : α → List ℚ)
    (batches : List (List (α × Nat))) (h : batches.flatten ≠ []) :
    evaluate_model net batches
      = some (100 * (batchCorrect net batches.flatten : ℚ)
          / (batches.flatten.length : ℚ)) := by
  simp only [evaluate_model, eval_foldl_counts net batches 0 0, Nat.zero_add]
  rw [if_neg (fun hc => h (List.length_eq_zero.mp hc))]

theorem evaluate_model_none (net : α → List ℚ)
    (batches : List (List (α × Nat))) (h : batches.flatten = []) :
    evaluate_model net batches = none := by
  simp only [evaluate_model, eval_foldl_counts net batches 0 0, Nat.zero_add]
  rw [if_pos (by rw [h]; rfl)]

/-! ### Claim theorems -/

/-- C1: over a non-empty evaluation run, the PyTorch `evaluate_model`
reports `100 × correct / total` with the correct/total counts accumulated
across all batches (equivalently, counted over the concatenation of the
batches), while the JAX `eval_step` loop reports the plain average of the
per-batch accuracy fractions `correct_b / |b|` over the batches, without a
factor of 100. -/
theorem evaluation_accuracy_formulas (net : α → List ℚ)
    (batches : List (List (α × Nat))) (h : batches.flatten ≠ []) :
    evaluate_model net batches
        = some (100 * (batchCorrect net batches.flatten : ℚ)
            / (batches.flatten.length : ℚ)) ∧
    jaxEval net batches
        = (batches.map
            (fun b => (batchCorrect net b : ℚ) / (b.length : ℚ))).sum
          / (batches.length : ℚ) := by
  refine ⟨evaluate_model_some net batches h, ?_⟩
  rw [jaxEval, mean,
    List.map_congr_left (fun b _ => batchAccuracy_eq_frac net b),
    List.length_map]

/-- Witness for C1 at a concrete run: three examples over two batches of
unequal sizes. -/
theorem evaluation_accuracy_formulas_witness :
    evaluate_model (fun x : ℚ => [x, 0]) [[(1, 0), (-1, 0)], [(2, 0)]]
        = some (100
            * (batchCorrect (fun x : ℚ => [x, 0])
                ([[(1, 0), (-1, 0)], [(2, 0)]] : List (List (ℚ × Nat))).flatten : ℚ)
            / (([[(1, 0), (-1, 0)], [(2, 0)]] :
                List (List (ℚ × Nat))).flatten.length : ℚ)) ∧
    jaxEval (fun x : ℚ => [x, 0]) [[(1, 0), (-1, 0)], [(2, 0)]]
        = (([[(1, 0), (-1, 0)], [(2, 0)]] : List (List (ℚ × Nat))).map
            (fun b => (batchCorrect (fun x : ℚ => [x, 0]) b : ℚ)
              / (b.length : ℚ))).sum
          / (([[(1, 0), (-1, 0)], [(2, 0)]] : List (List (ℚ × Nat))).length : ℚ) :=
  evaluation_accuracy_formulas (fun x : ℚ => [x, 0])
    [[(1, 0), (-1, 0)], [(2, 0)]] (by decide)

/-- C2: with learning rate 0.001 and momentum 0.9, the optimizer update
actually performed (`buffer = 0.9·buffer + g; p -= 0.001·buffer`, buffer
initialized to zero) follows exactly the same parameter trajectory as the
spec's classic rule (`velocity = 0.9·velocity − 0.001·g; p += velocity`,
velocity initialized to zero), for every starting parameter and every
gradient sequence. -/
theorem optimizer_matches_classic_rule (p0 : ℚ) (gs : List ℚ) :
    (runCode (1/1000) (9/10) p0 gs).1 = (runClassic (1/1000) (9/10) p0 gs).1 := by
  have h := foldl_classic_eq_code (1/1000) (9/10) gs p0 0
  have h0 : -((1 : ℚ)/1000 * 0) = (0 : ℚ) := by ring
  rw [h0] at h
  rw [runClassic, runCode, h]

/-- C8: the evaluation loop leaves the program state it reads (parameters
and optimizer state, threaded as the first component) unchanged: only the
correct/total counters are written. -/
theorem evaluator_leaves_state_unchanged (net : σ → α → List ℚ) (s0 : σ)
    (batches : List (List (α × Nat))) :
    (evalRun net s0 batches).1 = s0 :=
  evalRun_foldl_fst net batches (s0, 0, 0)

/-- C9: the PyTorch test transform equals `2·t − 1` where `t` is the
training transform of the same pixel; training tensors stay in `[0, 1]`;
the JAX pipeline applies the same `ToTensor` to both splits. -/
theorem test_transform_shifts_training_range (p : Nat) :
    testTransform p = 2 * trainTransform p - 1 ∧
    (p ≤ 255 → 0 ≤ trainTransform p ∧ trainTransform p ≤ 1) ∧
    jaxTestTransform p = jaxTrainTransform p := by
  refine ⟨?_, ?_, rfl⟩
  · rw [testTransform, trainTransform, normalize, toTensor]; ring
  · intro hp
    rw [trainTransform, toTensor]
    constructor
    · exact div_nonneg (Nat.cast_nonneg p) (by norm_num)
    · rw [div_le_one (by norm_num : (0 : ℚ) < 255)]
      exact_mod_cast hp

/-- Witness for C9 at the extreme pixel value 255. -/
theorem test_transform_witness :
    0 ≤ trainTransform 255 ∧ trainTransform 255 ≤ 1 :=
  (test_transform_shifts_training_range 255).2.1 (le_refl 255)

/-- C10: `evaluate_model` divides with no guard; with at least one example
the division succeeds and the result lies in `[0, 100]`, and with no
examples the division by zero faults (modelled by `none`). -/
theorem evaluate_model_division (net : α → List ℚ)
    (batches : List (List (α × Nat))) :
    (batches.flatten = [] → evaluate_model net batches = none) ∧
    (batches.flatten ≠ [] →
      ∃ a, evaluate_model net batches = some a ∧ 0 ≤ a ∧ a ≤ 100) := by
  refine ⟨evaluate_model_none net batches, ?_⟩
  intro h
  have hlen : 0 < batches.flatten.length := List.length_pos.mpr h
  have hlenQ : (0 : ℚ) < (batches.flatten.length : ℚ) := by exact_mod_cast hlen
  refine ⟨100 * (batchCorrect net batches.flatten : ℚ)
      / (batches.flatten.length : ℚ), evaluate_model_some net batches h, ?_, ?_⟩
  · positivity
  · rw [div_le_iff₀ hlenQ]
    have hct : (batchCorrect net batches.flatten : ℚ)
        ≤ (batches.flatten.length : ℚ) := by
      exact_mod_cast List.countP_le_length _
    linarith

/-- Witness for C10: the division faults on an empty loader and succeeds
within bounds on a one-example loader. -/
theorem evaluate_model_division_witness :
    evaluate_model (fun x : ℚ => [x]) ([[]] : List (List (ℚ × Nat))) = none ∧
    ∃ a, evaluate_model (fun x : ℚ => [x]) [[(5, 0)]] = some a ∧
      0 ≤ a ∧ a ≤ 100 :=
  ⟨(evaluate_model_division (fun x : ℚ => [x]) [[]]).1 (by decide),
   (evaluate_model_division (fun x : ℚ => [x]) [[(5, 0)]]).2 (by decide)⟩

/-- C5: with batch size 64, the training loader over 60000 examples yields
exactly ceil(60000/64) = 938 batches, the last of size 32; the test loader
over 10000 examples yields exactly ceil(10000/64) = 157 batches, the last
of size 16; and neither loader drops the final partial batch (the batches
concatenate back to the full dataset). -/
theorem dataloader_batching (train test : List α)
    (htr : train.length = 60000) (hte : test.length = 10000) :
    (chunks 64 train).length = 938 ∧
    (∃ lb, (chunks 64 train).getLast? = some lb ∧ lb.length = 32) ∧
    (chunks 64 train).flatten = train ∧
    (chunks 64 test).length = 157 ∧
    (∃ lb, (chunks 64 test).getLast? = some lb ∧ lb.length = 16) ∧
    (chunks 64 test).flatten = test := by
  have h64 : 0 < 64 := by norm_num
  have htrne : train ≠ [] := by
    intro hx; rw [hx] at htr; simp at htr
  have htene : test ≠ [] := by
    intro hx; rw [hx] at hte; simp at hte
  refine ⟨?_, ?_, flatten_chunks 64 h64 train, ?_, ?_,
    flatten_chunks 64 h64 test⟩
  · rw [length_chunks 64 h64, htr]
  · obtain ⟨c, hc, hlen⟩ := getLast_chunks 64 h64 train htrne
    exact ⟨c, hc, by rw [hlen, htr]⟩
  · rw [length_chunks 64 h64, hte]
  · obtain ⟨c, hc, hlen⟩ := getLast_chunks 64 h64 test htene
    exact ⟨c, hc, by rw [hlen, hte]⟩

/-- Witness for C5 on concrete datasets of 60000 and 10000 examples. -/
theorem dataloader_batching_witness :
    (chunks 64 (List.range 60000)).length = 938 ∧
    (∃ lb, (chunks 64 (List.range 60000)).getLast? = some lb ∧
      lb.length = 32) ∧
    (chunks 64 (List.range 60000)).flatten = List.range 60000 ∧
    (chunks 64 (List.range 10000)).length = 157 ∧
    (∃ lb, (chunks 64 (List.range 10000)).getLast? = some lb ∧
      lb.length = 16) ∧
    (chunks 64 (List.range 10000)).flatten = List.range 10000 :=
  dataloader_batching (List.range 60000) (List.range 10000)
    (by rw [List.length_range]) (by rw [List.length_range])

/-- C3: with a 128-row first-layer weight matrix of 784-entry rows (the
JAX kernel after transposition has the same shape), the 11×12 grid has 132
cells, exactly the first 128 are populated — each with the 28×28 reshape
of one weight row — and exactly the last 4 are blank. -/
theorem weight_grid_populates_128_cells (w : List (List ℚ))
    (hw : w.length = 128) (hrow : ∀ r ∈ w, r.length = 784) :
    (weightGrid w).length = 132 ∧
    (weightGrid w).countP (fun c => c.isSome) = 128 ∧
    (∀ i, i < 128 → ∃ m, (weightGrid w).getD i none = some m ∧
      m.length = 28 ∧ ∀ r ∈ m, r.length = 28) ∧
    (∀ i, 128 ≤ i → i < 132 → (weightGrid w).getD i none = none) := by
  have hgrid : weightGrid w = (List.range 132).map
      (fun i => if i < w.length then some (chunks 28 (w.getD i []))
                else none) := by
    rw [weightGrid]
  have h28 : (0 : Nat) < 28 := by norm_num
  refine ⟨?_, ?_, ?_, ?_⟩
  · rw [hgrid, List.length_map, List.length_range]
  · rw [hgrid, countP_isSome_map_range _ 132 128
      (fun i => by by_cases hx : i < 128 <;> simp [hx, hw]),
      countP_lt_range]
    norm_num
  · intro i hi
    have hi' : i < w.length := by omega
    have hcell : (weightGrid w).getD i none
        = some (chunks 28 (w.getD i [])) := by
      rw [hgrid, getD_map_range _ 132 i (by omega), if_pos hi']
    have hmem : w.getD i [] ∈ w := by
      rw [List.getD_eq_getElem w [] hi']
      exact List.getElem_mem hi'
    have h784 : (w.getD i []).length = 784 := hrow _ hmem
    refine ⟨chunks 28 (w.getD i []), hcell, ?_, ?_⟩
    · rw [length_chunks 28 h28, h784]
    · exact mem_chunks_length 28 h28 _ (by rw [h784]; norm_num)
  · intro i h128 h132
    rw [hgrid, getD_map_range _ 132 i h132, if_neg (by omega)]

/-- Witness for C3 at a concrete 128×784 weight matrix. -/
theorem weight_grid_witness :
    (weightGrid (List.replicate 128 (List.replicate 784 (0 : ℚ)))).length
        = 132 ∧
    (weightGrid (List.replicate 128 (List.replicate 784 (0 : ℚ)))).countP
        (fun c => c.isSome) = 128 ∧
    (∀ i, i < 128 → ∃ m,
      (weightGrid (List.replicate 128
          (List.replicate 784 (0 : ℚ)))).getD i none = some m ∧
      m.length = 28 ∧ ∀ r ∈ m, r.length = 28) ∧
    (∀ i, 128 ≤ i → i < 132 →
      (weightGrid (List.replicate 128
          (List.replicate 784 (0 : ℚ)))).getD i none = none) :=
  weight_grid_populates_128_cells _ (by rw [List.length_replicate])
    (fun r hr => by rw [List.eq_of_mem_replicate hr, List.length_replicate])

/-- C6: the JAX `cross_entropy_loss` — minus the mean over examples of the
one-hot/log-softmax dot product — equals the mean negative log-likelihood
of each example's true class, for any value of the (abstracted)
`logsumexp`, whenever the logits rows have 10 entries and the labels lie
in `[0, 9]`. -/
theorem cross_entropy_loss_is_mean_nll (lse : List ℚ → ℚ)
    (logits : List (List ℚ)) (labels : List Nat)
    (h10 : ∀ row ∈ logits, row.length = 10)
    (hlab : ∀ lab ∈ labels, lab < 10) :
    cross_entropy_loss lse logits labels = nllLoss lse logits labels := by
  rw [cross_entropy_loss, nllLoss]
  have hkey : ∀ row ∈ logits, ∀ lab ∈ labels,
      (List.zipWith (· * ·) (oneHot 10 lab) (logSoftmax lse row)).sum
        = (logSoftmax lse row).getD lab 0 := by
    intro row hrow lab hl
    have hlen : (logSoftmax lse row).length = 10 := by
      rw [logSoftmax, List.length_map, h10 row hrow]
    have hd := oneHot_dot (logSoftmax lse row) lab
      (by rw [hlen]; exact hlab lab hl)
    rw [hlen] at hd
    exact hd
  rw [zipWith_congr_mem logits labels _ _ hkey]
  have hneg : List.zipWith
        (fun row lab => -((logSoftmax lse row).getD lab 0)) logits labels
      = (List.zipWith (fun row lab => (logSoftmax lse row).getD lab 0)
          logits labels).map (fun x => -x) := by
    rw [List.map_zipWith]
  rw [hneg, mean_map_neg]

/-- Witness for C6 at a concrete batch: one example of 10 logits, label 3,
`logsumexp` instantiated to the constant 2. -/
theorem cross_entropy_loss_witness :
    cross_entropy_loss (fun _ => 2) [[0, 1, 2, 3, 4, 5, 6, 7, 8, 9]] [3]
      = nllLoss (fun _ => 2) [[0, 1, 2, 3, 4, 5, 6, 7, 8, 9]] [3] :=
  cross_entropy_loss_is_mean_nll (fun _ => 2) _ _ (by decide) (by decide)

/-- C4: one optimizer step over the four parameter tensors preserves every
tensor's shape (row counts, row lengths, bias lengths) — in particular the
(784,128),(128,),(128,10),(10,) shapes and their framework-transposed
variants — whenever the gradient and momentum pytrees have the parameter
shapes; the produced momentum buffers keep those shapes as well. -/
theorem optimizer_step_preserves_shapes (lr mu : ℚ) (p m g : NetParams)
    (hm : dims m = dims p) (hg : dims g = dims p) :
    dims (netStep lr mu p m g).1 = dims p ∧
    dims (netStep lr mu p m g).2 = dims p := by
  simp only [dims, Prod.mk.injEq] at hm hg
  obtain ⟨hm1, hm2, hm3, hm4⟩ := hm
  obtain ⟨hg1, hg2, hg3, hg4⟩ := hg
  have hw1 : (newBufMat mu m.w1 g.w1).map List.length
      = p.w1.map List.length := by
    rw [map_length_newBufMat mu m.w1 g.w1 (hm1.trans hg1.symm), hm1]
  have hb1 : (newBuf mu m.b1 g.b1).length = p.b1.length := by
    rw [length_newBuf mu m.b1 g.b1 (hm2.trans hg2.symm), hm2]
  have hw2 : (newBufMat mu m.w2 g.w2).map List.length
      = p.w2.map List.length := by
    rw [map_length_newBufMat mu m.w2 g.w2 (hm3.trans hg3.symm), hm3]
  have hb2 : (newBuf mu m.b2 g.b2).length = p.b2.length := by
    rw [length_newBuf mu m.b2 g.b2 (hm4.trans hg4.symm), hm4]
  constructor
  · simp only [netStep, dims, Prod.mk.injEq]
    exact ⟨map_length_newParamMat lr p.w1 _ hw1.symm,
      length_newParamVec lr p.b1 _ hb1.symm,
      map_length_newParamMat lr p.w2 _ hw2.symm,
      length_newParamVec lr p.b2 _ hb2.symm⟩
  · simp only [netStep, dims, Prod.mk.injEq]
    exact ⟨hw1, hb1, hw2, hb2⟩

/-- Witness for C4 at concrete small tensors of matching shapes. -/
theorem optimizer_step_preserves_shapes_witness :
    dims (netStep (1/1000) (9/10) ⟨[[1, 2]], [3], [[4]], [5]⟩
        ⟨[[0, 0]], [0], [[0]], [0]⟩ ⟨[[6, 7]], [8], [[9]], [10]⟩).1
      = dims ⟨[[1, 2]], [3], [[4]], [5]⟩ ∧
    dims (netStep (1/1000) (9/10) ⟨[[1, 2]], [3], [[4]], [5]⟩
        ⟨[[0, 0]], [0], [[0]], [0]⟩ ⟨[[6, 7]], [8], [[9]], [10]⟩).2
      = dims ⟨[[1, 2]], [3], [[4]], [5]⟩ :=
  optimizer_step_preserves_shapes (1/1000) (9/10) _ _ _ (by decide) (by decide)

/-- C7 counterexample: two complete runs from the same initial parameter
(the seed's only effect) over the same two training batches report
different accuracies when the unseeded loader draws the two shuffle orders
`[g1, g2]` and `[g2, g1]`: the reported accuracy is not a function of the
seed and dataset alone. -/
theorem fixed_seed_accuracy_not_reproducible :
    reportedAccuracy (1/1000) (9/10) netC7 0 [1, 0] [[((), 0)]]
      ≠ reportedAccuracy (1/1000) (9/10) netC7 0 [0, 1] [[((), 0)]] := by
  have h1 : (runCode (1/1000) (9/10) 0 [1, 0]).1 = -(19/10000) := by
    norm_num [runCode, codeStep]
  have h2 : (runCode (1/1000) (9/10) 0 [0, 1]).1 = -(1/1000) := by
    norm_num [runCode, codeStep]
  have e1 : evaluate_model (netC7 (-(19/10000)))
      ([[((), 0)]] : List (List (Unit × Nat))) = some 0 := by
    norm_num [evaluate_model, batchCorrect, netC7, argmaxIdx, argmaxAux,
      List.countP_cons, List.countP_nil]
  have e2 : evaluate_model (netC7 (-(1/1000)))
      ([[((), 0)]] : List (List (Unit × Nat))) = some 100 := by
    norm_num [evaluate_model, batchCorrect, netC7, argmaxIdx, argmaxAux,
      List.countP_cons, List.countP_nil]
  simp only [reportedAccuracy, h1, h2, e1, e2]
  norm_num

/-- C7 (amended): the reported accuracy is a deterministic function of the
seed, the dataset, and the shuffle orders drawn by the unseeded loaders —
and it genuinely depends on the shuffle order: there are two orders of the
same batches (permutations of one another) whose runs report different
accuracies. -/
theorem accuracy_depends_on_shuffle_order :
    ∃ gs1 gs2 : List ℚ, gs1.Perm gs2 ∧
      reportedAccuracy (1/1000) (9/10) netC7 0 gs1 [[((), 0)]]
        ≠ reportedAccuracy (1/1000) (9/10) netC7 0 gs2 [[((), 0)]] := by
  refine ⟨[1, 0], [0, 1], List.Perm.swap 0 1 [], ?_⟩
  have h1 : (runCode (1/1000) (9/10) 0 [1, 0]).1 = -(19/10000) := by
    norm_num [runCode, codeStep]
  have h2 : (runCode (1/1000) (9/10) 0 [0, 1]).1 = -(1/1000) := by
    norm_num [runCode, codeStep]
  have e1 : evaluate_model (netC7 (-(19/10000)))
      ([[((), 0)]] : List (List (Unit × Nat))) = some 0 := by
    norm_num [evaluate_model, batchCorrect, netC7, argmaxIdx, argmaxAux,
      List.countP_cons, List.countP_nil]
  have e2 : evaluate_model (netC7 (-(1/1000)))
      ([[((), 0)]] : List (List (Unit × Nat))) = some 100 := by
    norm_num [evaluate_model, batchCorrect, netC7, argmaxIdx, argmaxAux,
      List.countP_cons, List.countP_nil]
  simp only [reportedAccuracy, h1, h2, e1, e2]
  norm_num

end Blog
